import Mathlib

/-!
Verification of the redex analysis/transformation substrate against its
natural-language specification.  Each section below is a shallow embedding of
one component of the C++ source:

* `Ptm`      — `PatriciaTreeMap.h` (Okasaki–Gill Patricia-tree map over an
               abstract-domain value type), instantiated at the
               hashed-set-of-strings domain used by the test scenarios.
* `Oat`      — the AOT container codec of `tools/oatmeal` (`dump-oat.cpp`,
               `util.h`, `main.cpp`): Adler-32, the build write sequence, the
               parser dispatch on magic/version, and the CLI exit codes.
* `Regalloc` — `opt/regalloc/GraphColoring.cpp`: the select stage of the
               graph-colouring allocator.
* `Hier`     — `libredex/ClassHierarchy.cpp`: `get_all_children` and
               `find_collision_excepting`.
* `Alias`    — `opt/redundant_move_elimination/AliasedRegisters.h`:
               `AliasDomain::update`.

Machine integers: the keys and byte values handled here are `Nat` with the
C++ wrap-around made explicit (`% 2^32`) where the source relies on it.
`shared_ptr` identity is modelled by tagging every allocated tree node with a
distinct id drawn from a counter threaded through the allocating operations;
pointer equality in the source is id equality here.
-/

set_option maxRecDepth 400000

namespace Ptm

/-- The hashed-set-of-strings abstract domain (`HashedSetAbstractDomain.h` is
not part of `src/`).  Modelled from the spec: a domain wraps a value with
three states bottom / top / value(v); for the hashed-set domain the value is
a finite set of strings ordered by inclusion, join is set union and meet is
set intersection, with top and bottom as distinguished sentinels. -/
inductive HSDom where
  | top : HSDom
  | bot : HSDom
  | value : Finset String → HSDom
deriving DecidableEq

namespace HSDom

/-- `is_top` on the domain: only the top sentinel. -/
def isTop : HSDom → Bool
  | .top => true
  | _ => false

/-- `equals` on the domain: same state and same set. -/
def equals : HSDom → HSDom → Bool
  | .top, .top => true
  | .bot, .bot => true
  | .value s, .value t => decide (s = t)
  | _, _ => false

/-- `leq` on the domain: bottom below everything, everything below top,
sets ordered by inclusion. -/
def leq : HSDom → HSDom → Bool
  | .bot, _ => true
  | _, .top => true
  | .top, _ => false
  | .value _, .bot => false
  | .value s, .value t => s ⊆ t

/-- `join` (set union) on the domain. -/
def join : HSDom → HSDom → HSDom
  | .top, _ => .top
  | _, .top => .top
  | .bot, x => x
  | x, .bot => x
  | .value s, .value t => .value (s ∪ t)

/-- `meet` (set intersection) on the domain. -/
def meet : HSDom → HSDom → HSDom
  | .bot, _ => .bot
  | _, .bot => .bot
  | .top, x => x
  | x, .top => x
  | .value s, .value t => .value (s ∩ t)

end HSDom

/-- `ptmap_impl::snd`: the combining function used by `insert_or_assign`. -/
def snd (_ x : HSDom) : HSDom := x

/-- A Patricia-tree node (`ptmap_impl::PatriciaTree`, instantiated at the
hashed-set domain).  A branch carries a prefix and a branching bit and always
has two children; a leaf carries a key and a value.  The `id` field stands
for the `shared_ptr` allocation address: every `make_shared` in the source
corresponds to a fresh id here. -/
inductive PTree where
  | leaf (id : Nat) (key : Nat) (value : HSDom)
  | branch (id : Nat) (pfx : Nat) (bit : Nat) (left : PTree) (right : PTree)
deriving DecidableEq

/-- The allocation id of a node (its address). -/
def PTree.nid : PTree → Nat
  | .leaf i _ _ => i
  | .branch i _ _ _ _ => i

/-- `shared_ptr` equality: null equals null, and two non-null pointers are
equal exactly when they are the same allocation. -/
def ptrEq : Option PTree → Option PTree → Bool
  | none, none => true
  | some a, some b => a.nid == b.nid
  | _, _ => false

/-- Modelled from the spec: `pt_util::get_lowest_bit` of `PatriciaTreeUtil.h`
(not in `src/`).  The tries are little-endian (spec §3.4), so the branching
bit is the lowest set bit of the xor of the prefixes; the source computes
`x & (~x + 1)` on a 32-bit unsigned integer, which is the two's-complement
form written out below. -/
def getLowestBit (x : Nat) : Nat := x &&& (2 ^ 32 - x)

/-- Modelled from the spec: `pt_util::get_branching_bit`. -/
def getBranchingBit (p0 p1 : Nat) : Nat := getLowestBit (p0 ^^^ p1)

/-- Modelled from the spec: `pt_util::mask i m = i & (m - 1)` keeps the bits
strictly below the branching bit. -/
def maskBits (i m : Nat) : Nat := i &&& (m - 1)

/-- Modelled from the spec: `pt_util::match_prefix`. -/
def matchPfx (key pfx m : Nat) : Bool := maskBits key m == pfx

/-- Modelled from the spec: `pt_util::is_zero_bit`. -/
def isZeroBit (k m : Nat) : Bool := k &&& m == 0

/-- `ptmap_impl::join`: make a branch whose children are the two trees,
branching on the lowest bit at which their prefixes differ.  Allocates one
branch node. -/
def joinTrees (n : Nat) (prefix0 : Nat) (tree0 : PTree) (prefix1 : Nat)
    (tree1 : PTree) : Nat × PTree :=
  let m := getBranchingBit prefix0 prefix1
  if isZeroBit prefix0 m then
    (n + 1, .branch n (maskBits prefix0 m) m tree0 tree1)
  else
    (n + 1, .branch n (maskBits prefix0 m) m tree1 tree0)

/-- `ptmap_impl::make_branch`: prevents branch nodes with only one child. -/
def makeBranch (n : Nat) (pfx bit : Nat) :
    Option PTree → Option PTree → Nat × Option PTree
  | none, right => (n, right)
  | left, none => (n, left)
  | some l, some r => (n + 1, some (.branch n pfx bit l r))

/-- `ptmap_impl::find_value` on a non-null tree. -/
def findValueT (key : Nat) : PTree → Option HSDom
  | .leaf _ k v => if key == k then some v else none
  | .branch _ _ bit l r =>
    if isZeroBit key bit then findValueT key l else findValueT key r

/-- `ptmap_impl::find_value`: the value bound to `key`, or none. -/
def findValue (key : Nat) : Option PTree → Option HSDom
  | none => none
  | some t => findValueT key t

/-- `ptmap_impl::leq` on trees (absence of a key means top).  `fuel` bounds
the recursion depth (the source recursion terminates on the tree structure)
and is never exhausted at the inputs evaluated below. -/
def leqTree (fuel : Nat) (s t : Option PTree) : Bool :=
  match fuel with
  | 0 => false
  | fuel + 1 =>
    if ptrEq s t then true
    else match s, t with
      | none, _ => false
      | _, none => true
      | some (.leaf _ _ sv), some t =>
        match t with
        | .branch _ _ _ _ _ => false
        | .leaf _ _ tv => HSDom.leq sv tv
      | some s, some (.leaf _ tk tv) =>
        match findValue tk (some s) with
        | none => false
        | some sv => HSDom.leq sv tv
      | some (.branch _ p m s0 s1), some tb =>
        match tb with
        | .leaf _ _ _ => false  -- unreachable: handled by the previous case
        | .branch _ q n' t0 t1 =>
          if m == n' && p == q then
            leqTree fuel (some s0) (some t0) && leqTree fuel (some s1) (some t1)
          else if m < n' && matchPfx q p m then
            leqTree fuel (if isZeroBit q m then some s0 else some s1) (some tb)
          else false

/-- `ptmap_impl::equals`: structural equality (a Patricia tree is a canonical
representation of its bindings).  `fuel` bounds the recursion depth and is
never exhausted at the inputs evaluated below. -/
def equalsTree (fuel : Nat) (t1 t2 : Option PTree) : Bool :=
  match fuel with
  | 0 => false
  | fuel + 1 =>
    if ptrEq t1 t2 then true
    else match t1, t2 with
      | none, t2 => t2.isNone
      | _, none => false
      | some (.leaf _ k1 v1), some t2 =>
        match t2 with
        | .branch _ _ _ _ _ => false
        | .leaf _ k2 v2 => k1 == k2 && HSDom.equals v1 v2
      | some (.branch _ _ _ _ _), some (.leaf _ _ _) => false
      | some (.branch _ p1 m1 l1 r1), some (.branch _ p2 m2 l2 r2) =>
        p1 == p2 && m1 == m2 && equalsTree fuel (some l1) (some l2) &&
          equalsTree fuel (some r1) (some r2)

/-- `ptmap_impl::combine_leaf`: combine `value` into the leaf; a top result
deletes the binding, an unchanged result re-uses the leaf by reference. -/
def combineLeaf (n : Nat) (combine : HSDom → HSDom → HSDom) (value : HSDom)
    (lf : PTree) : Nat × Option PTree :=
  match lf with
  | .leaf _ k lv =>
    let combined := combine lv value
    if combined.isTop then (n, none)
    else if !(HSDom.equals combined lv) then (n + 1, some (.leaf n k combined))
    else (n, some lf)
  | b => (n, some b)  -- the source only ever passes a leaf here

/-- `ptmap_impl::combine_new_leaf`: combine `value` into a fresh top-valued
leaf. -/
def combineNewLeaf (n : Nat) (combine : HSDom → HSDom → HSDom) (key : Nat)
    (value : HSDom) : Nat × Option PTree :=
  let newLeaf : PTree := .leaf n key HSDom.top
  combineLeaf (n + 1) combine value newLeaf

/-- `ptmap_impl::update` on a non-null tree: replace the binding of `key` by
`combine(bound_value, value)`, synthesizing a top-valued leaf when absent;
unchanged subtrees are re-used by reference. -/
def updateT (n : Nat) (combine : HSDom → HSDom → HSDom) (key : Nat)
    (value : HSDom) : PTree → Nat × Option PTree
  | .leaf i k lv =>
    if key == k then combineLeaf n combine value (.leaf i k lv)
    else
      match combineNewLeaf n combine key value with
      | (n1, none) => (n1, some (.leaf i k lv))
      | (n1, some nl) =>
        let (n2, b) := joinTrees n1 key nl k (.leaf i k lv)
        (n2, some b)
  | .branch i p m l r =>
    if matchPfx key p m then
      if isZeroBit key m then
        let (n1, newLeft) := updateT n combine key value l
        if ptrEq newLeft (some l) then (n1, some (.branch i p m l r))
        else makeBranch n1 p m newLeft (some r)
      else
        let (n1, newRight) := updateT n combine key value r
        if ptrEq newRight (some r) then (n1, some (.branch i p m l r))
        else makeBranch n1 p m (some l) newRight
    else
      match combineNewLeaf n combine key value with
      | (n1, none) => (n1, some (.branch i p m l r))
      | (n1, some nl) =>
        let (n2, b) := joinTrees n1 key nl p (.branch i p m l r)
        (n2, some b)

/-- `ptmap_impl::update` (null tree allowed). -/
def update (n : Nat) (combine : HSDom → HSDom → HSDom) (key : Nat)
    (value : HSDom) : Option PTree → Nat × Option PTree
  | none => combineNewLeaf n combine key value
  | some t => updateT n combine key value t

/-- `ptmap_impl::merge`: structural union with the combining function.  The
`fuel` argument only bounds the recursion depth (the source recursion
terminates on the tree structure); it is never exhausted at the inputs
evaluated below.  The sub-merges of two non-null trees are non-null for the
combining functions in play (they never combine two stored, hence non-top,
values to top), so the `getD` defaults when rebuilding a branch are never
consulted; they only keep the function total. -/
def merge (fuel : Nat) (n : Nat) (combine : HSDom → HSDom → HSDom)
    (s t : Option PTree) : Nat × Option PTree :=
  match fuel with
  | 0 => (n, none)
  | fuel + 1 =>
    if ptrEq s t then (n, s)
    else match s, t with
      | none, t => (n, t)
      | s, none => (n, s)
      | some (.leaf _ k v), some t => update n combine k v (some t)
      | some s, some (.leaf _ k v) => update n combine k v (some s)
      | some (.branch si p m s0 s1), some (.branch ti q n' t0 t1) =>
        if m == n' && p == q then
          let (n1, newLeft) := merge fuel n combine (some s0) (some t0)
          let (n2, newRight) := merge fuel n1 combine (some s1) (some t1)
          if ptrEq newLeft (some s0) && ptrEq newRight (some s1) then
            (n2, some (.branch si p m s0 s1))
          else if ptrEq newLeft (some t0) && ptrEq newRight (some t1) then
            (n2, some (.branch ti q n' t0 t1))
          else (n2 + 1, some (.branch n2 p m (newLeft.getD s0) (newRight.getD s1)))
      else if m < n' && matchPfx q p m then
        if isZeroBit q m then
          let (n1, newLeft) := merge fuel n combine (some s0) (some (.branch ti q n' t0 t1))
          if ptrEq (some s0) newLeft then (n1, some (.branch si p m s0 s1))
          else (n1 + 1, some (.branch n1 p m (newLeft.getD s0) s1))
        else
          let (n1, newRight) := merge fuel n combine (some s1) (some (.branch ti q n' t0 t1))
          if ptrEq (some s1) newRight then (n1, some (.branch si p m s0 s1))
          else (n1 + 1, some (.branch n1 p m s0 (newRight.getD s1)))
      else if m > n' && matchPfx p q n' then
        if isZeroBit p n' then
          let (n1, newLeft) := merge fuel n combine (some (.branch si p m s0 s1)) (some t0)
          if ptrEq (some t0) newLeft then (n1, some (.branch ti q n' t0 t1))
          else (n1 + 1, some (.branch n1 q n' (newLeft.getD t0) t1))
        else
          let (n1, newRight) := merge fuel n combine (some (.branch si p m s0 s1)) (some t1)
          if ptrEq (some t1) newRight then (n1, some (.branch ti q n' t0 t1))
          else (n1 + 1, some (.branch n1 q n' t0 (newRight.getD t1)))
      else
        let (n1, b) := joinTrees n p (.branch si p m s0 s1) q (.branch ti q n' t0 t1)
        (n1, some b)

/-- `ptmap_impl::intersect`: structural intersection; when the prefixes agree
the sub-intersections are merged with the meet of the values. -/
def intersect (fuel : Nat) (n : Nat) (combine : HSDom → HSDom → HSDom)
    (s t : Option PTree) : Nat × Option PTree :=
  match fuel with
  | 0 => (n, none)
  | fuel + 1 =>
    if ptrEq s t then (n, s)
    else match s, t with
      | none, _ => (n, none)
      | _, none => (n, none)
      | some (.leaf i k v), some t =>
        match findValue k (some t) with
        | none => (n, none)
        | some value => combineLeaf n combine value (.leaf i k v)
      | some s, some (.leaf i k v) =>
        match findValue k (some s) with
        | none => (n, none)
        | some value => combineLeaf n combine value (.leaf i k v)
      | some (.branch si p m s0 s1), some (.branch ti q n' t0 t1) =>
        if m == n' && p == q then
          let (n1, l) := intersect fuel n combine (some s0) (some t0)
          let (n2, r) := intersect fuel n1 combine (some s1) (some t1)
          merge fuel n2 (fun x y => HSDom.meet x y) l r
        else if m < n' && matchPfx q p m then
          intersect fuel n combine (if isZeroBit q m then some s0 else some s1)
            (some (.branch ti q n' t0 t1))
        else if m > n' && matchPfx p q n' then
          intersect fuel n combine (some (.branch si p m s0 s1))
            (if isZeroBit p n' then some t0 else some t1)
        else (n, none)

/-- `PatriciaTreeMap::at`: unbound keys are implicitly bound to top. -/
def mapAt (t : Option PTree) (key : Nat) : HSDom :=
  (findValue key t).getD HSDom.top

/-- `PatriciaTreeMap::leq`. -/
def mapLeq (s t : Option PTree) : Bool := leqTree 64 s t

/-- `PatriciaTreeMap::equals`. -/
def mapEquals (s t : Option PTree) : Bool := equalsTree 64 s t

/-- `PatriciaTreeMap::insert_or_assign` (an `update` with the `snd`
combining function). -/
def insertOrAssign (n : Nat) (key : Nat) (value : HSDom) (t : Option PTree) :
    Nat × Option PTree :=
  update n snd key value t

/-- Build a map from a list of bindings by successive `insert_or_assign`,
threading the allocation counter. -/
def mkMap (n : Nat) (l : List (Nat × HSDom)) : Nat × Option PTree :=
  l.foldl (fun (acc : Nat × Option PTree) kv =>
    insertOrAssign acc.1 kv.1 kv.2 acc.2) (n, none)

/-- The leaf node reached by looking `key` up in a non-null tree. -/
def findLeafNodeT (key : Nat) : PTree → Option PTree
  | .leaf i k v => if key == k then some (.leaf i k v) else none
  | .branch _ _ bit l r =>
    if isZeroBit key bit then findLeafNodeT key l else findLeafNodeT key r

/-- The leaf node reached by looking `key` up in the tree (the subtree of the
map containing only that key, with its allocation id). -/
def findLeafNode (key : Nat) : Option PTree → Option PTree
  | none => none
  | some t => findLeafNodeT key t

/-- Shorthand for a value of the hashed-set domain. -/
def hs (l : List String) : HSDom := .value l.toFinset

/-- The scenario map `m1 = {1 → {"a"}, 2 → {"b"}, 3 → {"d","e"}}` together
with the allocation counter after building it. -/
def m1Build : Nat × Option PTree :=
  mkMap 0 [(1, hs ["a"]), (2, hs ["b"]), (3, hs ["d", "e"])]

/-- The scenario map `m2 = {2 → {"c"}, 3 → {"e","f"}, 4 → {"g"}}`, allocated
after `m1`. -/
def m2Build : Nat × Option PTree :=
  mkMap m1Build.1 [(2, hs ["c"]), (3, hs ["e", "f"]), (4, hs ["g"])]

/-- `m1.union_with(set_union, m2)` (the combining function is the hashed-set
join, i.e. set union). -/
def unionBuild : Nat × Option PTree :=
  merge 64 m2Build.1 HSDom.join m1Build.2 m2Build.2

/-- `m1.intersect_with(set_intersection, m2)` (the combining function is the
hashed-set meet, i.e. set intersection), applied to the original `m1`. -/
def interBuild : Nat × Option PTree :=
  intersect 64 unionBuild.1 HSDom.meet m1Build.2 m2Build.2

/-- The expected union `{1 → {"a"}, 2 → {"b","c"}, 3 → {"d","e","f"},
4 → {"g"}}`, built independently. -/
def expectedUnion : Option PTree :=
  (mkMap 1000 [(1, hs ["a"]), (2, hs ["b", "c"]), (3, hs ["d", "e", "f"]),
    (4, hs ["g"])]).2

/-- The intersection the claim expects: `{3 → {"e"}}`. -/
def claimedInter : Option PTree := (mkMap 2000 [(3, hs ["e"])]).2

/-- The intersection the code computes: `{2 → {}, 3 → {"e"}}` (the key-2
binding combines to the empty set, which is not top and is therefore kept). -/
def actualInter : Option PTree :=
  (mkMap 3000 [(2, hs []), (3, hs ["e"])]).2

end Ptm

namespace Oat

/-- One step of the Adler-32 rolling sum (`util.h`, `Adler32::update`):
`a = (a + byte) % 65521; b = (b + a) % 65521`. -/
def adlerStep (st : Nat × Nat) (byte : Nat) : Nat × Nat :=
  let a := (st.1 + byte) % 65521
  (a, (st.2 + a) % 65521)

/-- `Adler32::compute` over a byte sequence: `a` starts at 1 and `b` at 0;
the result is `(b << 16) | a`. -/
def adler32 (bytes : List Nat) : Nat :=
  let st := bytes.foldl adlerStep (1, 0)
  (st.2 <<< 16) ||| st.1

/-- Little-endian encoding of a 32-bit word (`write_word` / `write_obj` on a
`uint32_t` field). -/
def u32le (x : Nat) : List Nat :=
  [x % 256, x / 256 % 256, x / 65536 % 256, x / 16777216 % 256]

/-- Little-endian read of a 32-bit word at `off` (the `memcpy` into a
`uint32_t` field). -/
def readU32 (buf : List Nat) (off : Nat) : Nat :=
  buf.getD off 0 + 256 * buf.getD (off + 1) 0 + 65536 * buf.getD (off + 2) 0 +
    16777216 * buf.getD (off + 3) 0

/-- `kOatMagicNum` (`dump-oat.h`). -/
def kOatMagicNum : Nat := 0x0a74616f

/-- The recognized `OatVersion` values (`dump-oat.h`): the ASCII digits of
045, 064, 079, 088 followed by a NUL, plus the `UNKNOWN = 0` sentinel. -/
def vUnknown : Nat := 0
def v045 : Nat := 0x00353430
def v064 : Nat := 0x00343630
def v079 : Nat := 0x00393730
def v088 : Nat := 0x00383830

/-- `OatHeader_Common` (`dump-oat.cpp`): magic, version, Adler-32 checksum. -/
structure OatHeaderCommon where
  magic : Nat
  version : Nat
  checksum : Nat
deriving DecidableEq

/-- `OatHeader_Common::parse` once the 12-byte length check has passed. -/
def parseCommon (buf : List Nat) : OatHeaderCommon :=
  ⟨readU32 buf 0, readU32 buf 4, readU32 buf 8⟩

/-- The outcome of `parse_oatfile_impl`.  `OatFile_Bad` and `OatFile_Unknown`
keep only the common header; the version-specific parsers
(`OatFile_064::parse`, `OatFile_079::parse`) parse the rest of the file and
are represented here by their entry conditions only, since no claim reaches
into them; the C++ `return std::unique_ptr<OatFile>(nullptr)` at the end of
the switch is `nullResult`. -/
inductive OatParseResult where
  | bad (header : OatHeaderCommon)
  | unknown (header : OatHeaderCommon)
  | parsed064 (dexFilesOnly : Bool) (oatOffset : Nat)
  | parsed079 (dexFilesOnly : Bool) (oatOffset : Nat)
  | nullResult
deriving DecidableEq

/-- `OatFile::Status` (`dump-oat.h`). -/
inductive OatStatus where
  | parseSuccess
  | parseUnknownVersion
  | parseBadMagicNumber
  | parseFailure
  | buildSuccess
  | buildUnsupportedVersion
  | buildIoError
deriving DecidableEq

/-- `status()` of the parse outcomes that define it structurally:
`OatFile_Bad::status` is `PARSE_BAD_MAGIC_NUMBER`, `OatFile_Unknown::status`
is `PARSE_UNKNOWN_VERSION`; a null result has no status (dereferencing it
would be undefined), and the status of the version-specific parsers is
decided by code no claim depends on. -/
def statusOf : OatParseResult → Option OatStatus
  | .bad _ => some .parseBadMagicNumber
  | .unknown _ => some .parseUnknownVersion
  | _ => none

/-- `sizeof(Elf32_Ehdr)`. -/
def elfEhdrSize : Nat := 52

/-- Whether the buffer starts with the ELF ident bytes checked by
`parse_oatfile_impl` (`0x7f 'E' 'L' 'F'`, checked only when the buffer is at
least `sizeof(Elf32_Ehdr)` long). -/
def isElf (buf : List Nat) : Bool :=
  decide (elfEhdrSize ≤ buf.length) && buf.getD 0 0 == 0x7f &&
    buf.getD 1 0 == 0x45 && buf.getD 2 0 == 0x4c && buf.getD 3 0 == 0x46

/-- The offset of the AOT data section within the buffer: `0x1000` behind an
ELF wrapper, else 0. -/
def oatDataOffset (buf : List Nat) : Nat := if isElf buf then 0x1000 else 0

/-- `parse_oatfile_impl`.  Returns the parse outcome together with the ranges
of the input buffer marked by the memory accounter (`memcpyAndMark`), as
`(absolute offset, length)` pairs; the plain `memcpy` of the ELF ident is not
marked.  `none` models a failed `CHECK` (the `ConstBuffer::slice` bound or
the 12-byte common-header length check).  For the version-specific parsers
the marks accumulated up to the dispatch are returned; their own marks are
beyond the claims checked here. -/
def parseOatfileImpl (dexFilesOnly : Bool) (buf : List Nat) :
    Option (OatParseResult × List (Nat × Nat)) :=
  if oatDataOffset buf ≤ buf.length then
    if 12 ≤ (buf.drop (oatDataOffset buf)).length then
      if (parseCommon (buf.drop (oatDataOffset buf))).magic ≠ kOatMagicNum then
        -- OatFile_Bad::parse re-parses the common header and keeps it.
        some (.bad (parseCommon (buf.drop (oatDataOffset buf))),
          [(oatDataOffset buf, 12), (oatDataOffset buf, 12)])
      else if (parseCommon (buf.drop (oatDataOffset buf))).version = v045 ∨
          (parseCommon (buf.drop (oatDataOffset buf))).version = v064 then
        some (.parsed064 dexFilesOnly (oatDataOffset buf), [(oatDataOffset buf, 12)])
      else if (parseCommon (buf.drop (oatDataOffset buf))).version = v079 ∨
          (parseCommon (buf.drop (oatDataOffset buf))).version = v088 then
        some (.parsed079 dexFilesOnly (oatDataOffset buf), [(oatDataOffset buf, 12)])
      else if (parseCommon (buf.drop (oatDataOffset buf))).version = vUnknown then
        -- OatFile_Unknown::parse re-parses the common header and keeps it.
        some (.unknown (parseCommon (buf.drop (oatDataOffset buf))),
          [(oatDataOffset buf, 12), (oatDataOffset buf, 12)])
      else
        -- No switch case matches: the function prints a diagnostic and
        -- returns a null pointer.
        some (.nullResult, [(oatDataOffset buf, 12)])
    else none
  else none

/-- `align<Width>` (`util.h`) for the widths used by the builder. -/
def align4 (x : Nat) : Nat := (x + 3) / 4 * 4

/-- `align<0x1000>`. -/
def alignPage (x : Nat) : Nat := (x + 4095) / 4096 * 4096

/-- The `OatHeader` fields as set up by `build_header` and serialized by
`OatHeader::write`.  The `common*` fields hold the placeholder written in
the first pass. -/
structure OatHdr where
  commonMagic : Nat
  commonVersion : Nat
  commonChecksum : Nat
  instructionSet : Nat
  instructionSetFeaturesBitmap : Nat
  dexFileCount : Nat
  executableOffset : Nat
  interpToInterpBridgeOffset : Nat
  interpToCompiledBridgeOffset : Nat
  jniDlsymLookupOffset : Nat
  portableImtConflictOffset : Nat
  portableResolutionOffset : Nat
  portableToInterpBridgeOffset : Nat
  quickGenericJniOffset : Nat
  quickImtConflictOffset : Nat
  quickResolutionOffset : Nat
  quickToInterpBridgeOffset : Nat
  imagePatchDelta : Nat
  imageFileLocationOatChecksum : Nat
  imageFileLocationOatDataBegin : Nat
  keyValueStoreSize : Nat

/-- `build_header`: the common portion is filled with the `0xcdcdcdcd`
placeholder (it is re-written with the checksum at the end), the other
fields are set from the inputs and default to zero. -/
def buildHeader (dexFileCount isa kvSize oatSize : Nat)
    (imageInfo : Option (Nat × Nat × Nat)) : OatHdr where
  commonMagic := 0xcdcdcdcd
  commonVersion := 0xcdcdcdcd
  commonChecksum := 0xcdcdcdcd
  instructionSet := isa
  instructionSetFeaturesBitmap := 1
  dexFileCount := dexFileCount
  executableOffset := oatSize
  interpToInterpBridgeOffset := 0
  interpToCompiledBridgeOffset := 0
  jniDlsymLookupOffset := 0
  portableImtConflictOffset := 0
  portableResolutionOffset := 0
  portableToInterpBridgeOffset := 0
  quickGenericJniOffset := 0
  quickImtConflictOffset := 0
  quickResolutionOffset := 0
  quickToInterpBridgeOffset := 0
  imagePatchDelta := (imageInfo.map (·.1)).getD 0
  imageFileLocationOatChecksum := (imageInfo.map (·.2.1)).getD 0
  imageFileLocationOatDataBegin := (imageInfo.map (·.2.2)).getD 0
  keyValueStoreSize := kvSize

/-- `OatHeader::write`: the common part followed by each word; the three
portable trampoline fields are emitted only when the `common.version` field
(at write time, the placeholder) equals `V_045`. -/
def oatHeaderWrite (h : OatHdr) : List Nat :=
  u32le h.commonMagic ++ u32le h.commonVersion ++ u32le h.commonChecksum ++
  u32le h.instructionSet ++ u32le h.instructionSetFeaturesBitmap ++
  u32le h.dexFileCount ++ u32le h.executableOffset ++
  u32le h.interpToInterpBridgeOffset ++ u32le h.interpToCompiledBridgeOffset ++
  u32le h.jniDlsymLookupOffset ++
  (if h.commonVersion = v045 then
    u32le h.portableImtConflictOffset ++ u32le h.portableResolutionOffset ++
      u32le h.portableToInterpBridgeOffset
  else []) ++
  u32le h.quickGenericJniOffset ++ u32le h.quickImtConflictOffset ++
  u32le h.quickResolutionOffset ++ u32le h.quickToInterpBridgeOffset ++
  u32le h.imagePatchDelta ++ u32le h.imageFileLocationOatChecksum ++
  u32le h.imageFileLocationOatDataBegin ++ u32le h.keyValueStoreSize

/-- `OatHeader::size(version)`: `sizeof(OatHeader)` (84 bytes packed) for
V045, twelve bytes fewer otherwise. -/
def oatHeaderSize (version : Nat) : Nat := if version = v045 then 84 else 72

/-- The inputs of `build_oatfile` that are produced by collaborating
serializers: the serialized key-value store, dex-file listing, concatenated
dex files, oat-classes tables and lookup tables, plus the amount by which
`DexFileListingType::build` advances `next_offset` past the listing (the
total size of the dex files and their metadata tables). -/
structure BuildInput where
  version : Nat
  dexFileCount : Nat
  isa : Nat
  imageInfo : Option (Nat × Nat × Nat)
  kvBytes : List Nat
  listingBytes : List Nat
  dexBytes : List Nat
  oatClassesBytes : List Nat
  lookupBytes : List Nat
  listingAdvance : Nat

/-- `next_offset` before `DexFileListingType::build` runs. -/
def nextOffset0 (i : BuildInput) : Nat :=
  align4 (oatHeaderSize i.version + i.kvBytes.length + i.listingBytes.length)

/-- `oat_size = align<0x1000>(next_offset)` after the listing build advanced
`next_offset`. -/
def oatSizeOf (i : BuildInput) : Nat :=
  alignPage (nextOffset0 i + i.listingAdvance)

/-- The header bytes written by the first (un-checksummed) pass. -/
def headerBytes (i : BuildInput) : List Nat :=
  oatHeaderWrite (buildHeader i.dexFileCount i.isa i.kvBytes.length
    (oatSizeOf i) i.imageInfo)

/-- Everything written through the `ChecksummingFileHandle`, in order: the
key-value store, the dex-file listing, zero padding to 4-byte alignment
(`bytes_written` includes the header), the dex files, the oat-classes
tables, the lookup tables, and zero padding up to `oat_size`.  The final
padding count is a `size_t` subtraction in the source; this model takes the
truncated `Nat` subtraction and the theorems restrict to inputs that fit. -/
def checksummedBytes (i : BuildInput) : List Nat :=
  let written1 := (headerBytes i).length + i.kvBytes.length + i.listingBytes.length
  let pad1 := List.replicate (align4 written1 - written1) 0
  let written2 := written1 + pad1.length + i.dexBytes.length +
    i.oatClassesBytes.length + i.lookupBytes.length
  i.kvBytes ++ i.listingBytes ++ pad1 ++ i.dexBytes ++ i.oatClassesBytes ++
    i.lookupBytes ++ List.replicate (oatSizeOf i - written2) 0

/-- The number of bytes written before the final padding (header, key-value
store, listing, alignment padding, dex files, metadata tables); the builder
is faithful to the source only when this does not exceed `oat_size` (the
source subtraction is on `size_t`). -/
def bytesBeforeFinalPad (i : BuildInput) : Nat :=
  let written1 := (headerBytes i).length + i.kvBytes.length + i.listingBytes.length
  align4 written1 + i.dexBytes.length + i.oatClassesBytes.length +
    i.lookupBytes.length

/-- The checksum stored in the file: the Adler-32 state fed exactly the
bytes written through the checksumming handle (`update_checksum` on the
header is a no-op). -/
def storedChecksum (i : BuildInput) : Nat := adler32 (checksummedBytes i)

/-- The final common header written after `seek_begin()`: real magic, real
version, final checksum. -/
def finalCommonBytes (i : BuildInput) : List Nat :=
  u32le kOatMagicNum ++ u32le i.version ++ u32le (storedChecksum i)

/-- The file as it stands before the seek-back: header placeholder plus the
checksummed body. -/
def fileBeforeSeekback (i : BuildInput) : List Nat :=
  headerBytes i ++ checksummedBytes i

/-- `build_oatfile` (without the ELF wrapper): the final file is the
intermediate file with its first 12 bytes overwritten by the final common
header, which is the last write. -/
def buildOatfile (i : BuildInput) : List Nat :=
  finalCommonBytes i ++ (fileBeforeSeekback i).drop 12

/-- The number of bytes the dex files and metadata sections append between
the 4-byte alignment padding and the final padding. -/
def sectionBytesLen (i : BuildInput) : Nat :=
  i.dexBytes.length + i.oatClassesBytes.length + i.lookupBytes.length

/-- The build input of the C3 scenario: a V079 container from empty
sections. -/
def emptyBuild : BuildInput := ⟨v079, 0, 0, none, [], [], [], [], [], 0⟩

/-- The version-specific header fields of `emptyBuild` as written: the
features bitmap is 1 and `executable_offset` is `oat_size = 0x1000`;
everything else is zero. -/
def emptyBuildHdrRest : List Nat :=
  List.replicate 4 0 ++ [1, 0, 0, 0] ++ List.replicate 4 0 ++ [0, 16, 0, 0] ++
    List.replicate 44 0

/-- The CLI argument record (`main.cpp`, `struct Arguments`), after
`parse_args` has succeeded.  File names and version strings only matter
through emptiness and list lengths here. -/
inductive CliAction where
  | dump
  | build
  | none
deriving DecidableEq

structure CliArgs where
  action : CliAction
  writeElf : Bool
  oatFileEmpty : Bool
  dexFileCount : Nat
  oatVersionEmpty : Bool
  dumpClasses : Bool
  dumpTables : Bool
  dumpMemoryUsage : Bool
  printUnverifiedClasses : Bool

/-- `dump(args)` (`main.cpp`): argument and I/O failures return 1, then the
exit code is 0 exactly when the parse status is `PARSE_SUCCESS`.  The file
system interactions are oracles: whether `fopen` succeeded, whether the read
returned the full size, and the status of the parsed file. -/
def dumpExit (args : CliArgs) (fopenOk : Bool) (readOk : Bool)
    (parseStatus : OatStatus) : Nat :=
  if args.oatFileEmpty then 1
  else if !fopenOk then 1
  else if !readOk then 1
  else if parseStatus = .parseSuccess then 0 else 1

/-- `build(args)` (`main.cpp`): argument failures return 1; otherwise
`OatFile::build` is invoked and its status is discarded — the function
returns 0 regardless of `buildStatus`. -/
def buildExit (args : CliArgs) (buildStatus : OatStatus) : Nat :=
  if args.oatFileEmpty then 1
  else if args.dexFileCount = 0 then 1
  else if args.oatVersionEmpty then 1
  else
    let _ := buildStatus
    0

/-- `main` (`main.cpp`): dispatch on the action; no action selected exits
with 1. -/
def mainExit (args : CliArgs) (fopenOk readOk : Bool)
    (parseStatus buildStatus : OatStatus) : Nat :=
  match args.action with
  | .build => buildExit args buildStatus
  | .dump => dumpExit args fopenOk readOk parseStatus
  | .none => 1

end Oat

namespace Regalloc

/-- One node of the interference graph (`interference::Graph::Node`): its
bit width (1 or 2 slots), its maximum encodable vreg, and its adjacency
list. -/
structure IGNode where
  width : Nat
  maxVreg : Nat
  adjacent : List Nat

/-- `interference::Graph` restricted to what `Allocator::select` reads:
`get_node`. -/
def IGraph : Type := Nat → IGNode

/-- Modelled from the spec: `VirtualRegistersFile` (its header is not in
`src/`) is a bitmap of occupied vregs; `alloc_at(pos, width)` marks the
`width` slots starting at `pos`. -/
def allocAt (occ : Finset Nat) (pos width : Nat) : Finset Nat :=
  occ ∪ Finset.Ico pos (pos + width)

/-- Whether `width` contiguous slots starting at `base` are all free. -/
def isFreeAt (occ : Finset Nat) (base width : Nat) : Bool :=
  decide (∀ k ∈ Finset.Ico base (base + width), k ∉ occ)

/-- Linear search for the first free base at or after `base`, trying at most
`fuel + 1` candidates. -/
def lowestFitAux (occ : Finset Nat) (width : Nat) : Nat → Nat → Nat
  | 0, base => base
  | fuel + 1, base =>
    if isFreeAt occ base width then base else lowestFitAux occ width fuel (base + 1)

/-- Modelled from the spec: `VirtualRegistersFile::alloc(width)` returns the
lowest vreg at which `width` contiguous vregs are free (one slot past the
highest occupied vreg is always free, so the search bound suffices). -/
def vregAlloc (occ : Finset Nat) (width : Nat) : Nat :=
  lowestFitAux occ width (occ.sup id + 1) 0

/-- Modelled from the spec: `VirtualRegistersFile::size()`, the extent of
the register file (one past the highest occupied slot). -/
def fileSize (occ : Finset Nat) : Nat :=
  occ.sup (· + 1)

/-- `mark_adjacent` (`GraphColoring.cpp`): the register-file bitmap holding
every vreg already allocated to a coloured neighbour of `reg`. -/
def markAdjacent (ig : IGraph) (reg : Nat) (regMap : Nat → Option Nat) :
    Finset Nat :=
  (ig reg).adjacent.foldl (fun occ adj =>
    match regMap adj with
    | some v => allocAt occ v (ig adj).width
    | none => occ) ∅

/-- The state threaded through `Allocator::select`: the register map being
built (`reg_transform->map`), the spill plan (`global_spills` and
`spill_costs`), and the running register-file size. -/
structure SelectState where
  regMap : Nat → Option Nat
  globalSpills : Nat → Option Nat
  spillCosts : Nat → Option Nat
  vregsSize : Nat

/-- The body of the `Allocator::select` loop for one popped node: mark the
neighbours' vregs, allocate the lowest fitting slot, and either record the
assignment (when it is encodable) or record a global spill. -/
def selectStep (ig : IGraph) (st : SelectState) (reg : Nat) : SelectState :=
  let node := ig reg
  let occ := markAdjacent ig reg st.regMap
  let vreg := vregAlloc occ node.width
  let occ2 := allocAt occ vreg node.width
  if vreg ≤ node.maxVreg then
    { st with
      regMap := fun r => if r = reg then some vreg else st.regMap r
      vregsSize := max st.vregsSize (fileSize occ2) }
  else
    { st with
      globalSpills := fun r => if r = reg then some vreg else st.globalSpills r
      spillCosts := fun r => if r = reg then some 0 else st.spillCosts r
      vregsSize := max st.vregsSize (fileSize occ2) }

/-- `Allocator::select`: pop the stack until empty (the head of the list is
the top of the stack). -/
def select (ig : IGraph) : List Nat → SelectState → SelectState
  | [], st => st
  | reg :: stack, st => select ig stack (selectStep ig st reg)

end Regalloc

namespace Hier

/-- `get_all_children` (`ClassHierarchy.cpp`): for each direct child, insert
it and recurse.  The hierarchy is the `parent → children` map as a function
(`get_children` yields the empty set for an absent type); the types in scope
are drawn from `Fin n`.  The source recursion terminates because the built
hierarchy is acyclic; `fuel` bounds the depth, and `n` is always enough by
`c7_hierarchy_closure` below. -/
def allChildren (n : Nat) (ch : Fin n → List (Fin n)) :
    Nat → Fin n → Finset (Fin n)
  | 0, _ => ∅
  | fuel + 1, t =>
    (ch t).foldl (fun acc c => insert c acc ∪ allChildren n ch fuel c) ∅

/-- The direct-child relation of the hierarchy. -/
def childStep (n : Nat) (ch : Fin n → List (Fin n)) (a b : Fin n) : Prop :=
  b ∈ ch a

/-- `b` is a transitive descendant of `a`. -/
def Desc (n : Nat) (ch : Fin n → List (Fin n)) (a b : Fin n) : Prop :=
  Relation.TransGen (childStep n ch) a b

/-- The hierarchy index has no type that is its own descendant. -/
def Acyclic (n : Nat) (ch : Fin n → List (Fin n)) : Prop :=
  ∀ t, ¬ Desc n ch t t

/-- A descent path: `ChainTo ch a l c` says the vertices of `l` are visited
in order by child steps starting from `a`, ending at `c` (so `l` is nonempty
and its last element is `c`). -/
inductive ChainTo (n : Nat) (ch : Fin n → List (Fin n)) :
    Fin n → List (Fin n) → Fin n → Prop where
  | single {a b : Fin n} : b ∈ ch a → ChainTo n ch a [b] b
  | cons {a b c : Fin n} {l : List (Fin n)} :
      b ∈ ch a → ChainTo n ch b l c → ChainTo n ch a (b :: l) c

/-- `check_vmethods` / `check_dmethods` match a method by interned name and
proto (`ClassHierarchy.cpp`, `match`).  Methods are identified by an id
standing for their address. -/
structure Method where
  name : Nat
  proto : Nat
  mid : Nat
deriving DecidableEq

/-- The part of a `DexClass` read by `find_collision_excepting`. -/
structure ClassDef where
  dmethods : List Method
  vmethods : List Method

/-- `match(name, proto, cls_meth)`. -/
def matchSig (name proto : Nat) (m : Method) : Bool :=
  m.name == name && m.proto == proto

/-- The first method in the list matching the signature other than
`except` (the loops of `find_collision_excepting`; `exceptId` is the address
of `except`). -/
def findMatchExcept (name proto exceptId : Nat) (l : List Method) :
    Option Method :=
  l.find? (fun m => matchSig name proto m && m.mid != exceptId)

/-- `check_vmethods`: the matching method of the class bound to the type, if
any (no `except` filter; the caller applies it). -/
def checkVmethods (typeClass : Fin n → Option ClassDef) (name proto : Nat)
    (t : Fin n) : Option Method :=
  ((typeClass t).getD ⟨[], []⟩).vmethods.find? (matchSig name proto)

/-- `check_dmethods`. -/
def checkDmethods (typeClass : Fin n → Option ClassDef) (name proto : Nat)
    (t : Fin n) : Option Method :=
  ((typeClass t).getD ⟨[], []⟩).dmethods.find? (matchSig name proto)

/-- The descendant scan of `find_collision_excepting` over the ordered
child set: v-methods always, d-methods when `checkDirect`. -/
def scanChildren (typeClass : Fin n → Option ClassDef)
    (name proto exceptId : Nat) (checkDirect : Bool) :
    List (Fin n) → Option Method
  | [] => none
  | child :: rest =>
    match checkVmethods typeClass name proto child with
    | some m =>
      if m.mid ≠ exceptId then some m
      else scanChildrenD typeClass name proto exceptId checkDirect child rest
    | none => scanChildrenD typeClass name proto exceptId checkDirect child rest
where
  /-- the d-method half of the loop body, then the next child -/
  scanChildrenD (typeClass : Fin n → Option ClassDef)
      (name proto exceptId : Nat) (checkDirect : Bool) (child : Fin n)
      (rest : List (Fin n)) : Option Method :=
    if checkDirect then
      match checkDmethods typeClass name proto child with
      | some m =>
        if m.mid ≠ exceptId then some m
        else scanChildren typeClass name proto exceptId checkDirect rest
      | none => scanChildren typeClass name proto exceptId checkDirect rest
    else scanChildren typeClass name proto exceptId checkDirect rest

/-- `find_collision_excepting` (`ClassHierarchy.cpp`).  `resolveVirtual`
stands for `resolve_virtual` of `Resolver.cpp` (not in `src/`) and is passed
as an oracle; `superCls` is `type_class(cls->get_super_class())`.  The
descendant scan walks `get_all_children` of the class type in the set's
order. -/
def findCollisionExcepting (ch : Fin n → List (Fin n))
    (typeClass : Fin n → Option ClassDef)
    (resolveVirtual : ClassDef → Nat → Nat → Option Method)
    (exceptId name proto : Nat) (cls : ClassDef) (clsType : Fin n)
    (superCls : Option ClassDef) (isVirtual checkDirect : Bool) :
    Option Method :=
  match findMatchExcept name proto exceptId cls.dmethods with
  | some m => some m
  | none =>
    match findMatchExcept name proto exceptId cls.vmethods with
    | some m => some m
    | none =>
      if !isVirtual then none
      else
        let viaSuper :=
          match superCls with
          | some sup =>
            match resolveVirtual sup name proto with
            | some m => if m.mid ≠ exceptId then some m else none
            | none => none
          | none => none
        match viaSuper with
        | some m => some m
        | none =>
          scanChildren typeClass name proto exceptId checkDirect
            ((allChildren n ch n clsType).sort (· ≤ ·))

end Hier

namespace Alias

/-- `AbstractValueKind` (`AbstractDomain.h` is not in `src/`).  Modelled
from the spec: a domain wraps a value with the three states bottom, top and
value. -/
inductive AVKind where
  | bottom
  | top
  | value
deriving DecidableEq

/-- The `AbstractDomainScaffolding` state: the domain's kind together with
the wrapped abstract value (present whatever the kind, as in the C++ object
layout). -/
structure Scaffold (V : Type) where
  kind : AVKind
  val : V
deriving DecidableEq

/-- `normalize()`: modelled from the spec — after a mutation, a value that
is effectively top or bottom (as reported by the value's own `kind()`,
passed here as `vkind`) is canonicalized back to the corresponding
sentinel. -/
def normalize {V : Type} (vkind : V → AVKind) (s : Scaffold V) : Scaffold V :=
  match vkind s.val with
  | .top => { s with kind := .top }
  | .bottom => { s with kind := .bottom }
  | .value => s

/-- `AliasDomain::update` (`AliasedRegisters.h`): a bottom domain is
returned unchanged without invoking the operation; otherwise the operation
is applied to the underlying value and the domain is normalized. -/
def update {V : Type} (vkind : V → AVKind) (op : V → V) (s : Scaffold V) :
    Scaffold V :=
  if s.kind = .bottom then s
  else normalize vkind { s with val := op s.val }

end Alias

/-! ## Theorems -/

/-- C1 counterexample: at the spec's own inputs
`m1 = {1 → {a}, 2 → {b}, 3 → {d,e}}` and `m2 = {2 → {c}, 3 → {e,f}, 4 → {g}}`,
`m1.intersect_with(set_intersection, m2)` does not equal `{3 → {e}}`: the
key-2 binding combines to the empty set, which is not top and is therefore
kept. -/
theorem c1_intersect_counterexample :
    Ptm.mapEquals Ptm.interBuild.2 Ptm.claimedInter = false := by decide

/-- C1 (amended): `m1.union_with(set_union, m2)` equals
`{1 → {a}, 2 → {b,c}, 3 → {d,e,f}, 4 → {g}}` and re-uses by reference
(same allocation) the subtree of `m1` containing only key 1, and
`m1.intersect_with(set_intersection, m2)` equals `{2 → {}, 3 → {e}}`. -/
theorem c1_union_intersect :
    Ptm.mapEquals Ptm.unionBuild.2 Ptm.expectedUnion = true ∧
    Ptm.findLeafNode 1 Ptm.unionBuild.2 = Ptm.findLeafNode 1 Ptm.m1Build.2 ∧
    (Ptm.findLeafNode 1 Ptm.m1Build.2).isSome = true ∧
    Ptm.mapEquals Ptm.interBuild.2 Ptm.actualInter = true := by
  refine ⟨by decide, by decide, by decide, by decide⟩

/-- C2 (code bug): at `s = {1 → {a}}` and `t = {2 → {a,b}}`, the map `leq`
returns true (the leaf-leaf case compares only the values, never the keys),
while the claimed pointwise semantics is false: key 2 is explicitly bound in
`t` but unbound (hence top) in `s`, and top is not below `{a,b}`. -/
theorem c2_leq_leaf_bug :
    Ptm.mapLeq (some (.leaf 0 1 (Ptm.hs ["a"]))) (some (.leaf 1 2 (Ptm.hs ["a", "b"]))) = true ∧
    Ptm.findValue 2 (some (Ptm.PTree.leaf 0 1 (Ptm.hs ["a"]))) = none ∧
    (Ptm.findValue 2 (some (Ptm.PTree.leaf 1 2 (Ptm.hs ["a", "b"])))).isSome = true ∧
    Ptm.HSDom.leq (Ptm.mapAt (some (.leaf 0 1 (Ptm.hs ["a"]))) 2)
      (Ptm.mapAt (some (.leaf 1 2 (Ptm.hs ["a", "b"]))) 2) = false := by
  refine ⟨by decide, by decide, by decide, by decide⟩

/-- C10: `AliasDomain::update` leaves a bottom domain bottom for every
operation (and hence never invokes the operation: the result does not depend
on it), and on a non-bottom domain applies the operation to the underlying
value and normalizes the result. -/
theorem c10_alias_update {V : Type} (vkind : V → Alias.AVKind) (op op2 : V → V)
    (s : Alias.Scaffold V) :
    (s.kind = .bottom → Alias.update vkind op s = s) ∧
    (s.kind = .bottom → Alias.update vkind op s = Alias.update vkind op2 s) ∧
    (s.kind ≠ .bottom →
      Alias.update vkind op s = Alias.normalize vkind ⟨s.kind, op s.val⟩) := by
  refine ⟨fun h => ?_, fun h => ?_, fun h => ?_⟩
  · simp [Alias.update, h]
  · simp [Alias.update, h]
  · cases s with
    | mk k v => simp_all [Alias.update]

/-- C10 witness: the theorem applied at a concrete bottom domain and a
concrete non-bottom domain over `Nat`. -/
theorem c10_alias_update_witness :
    Alias.update (fun _ => Alias.AVKind.value) (· + 1) (⟨.bottom, 0⟩ : Alias.Scaffold Nat) = ⟨.bottom, 0⟩ ∧
    Alias.update (fun _ => Alias.AVKind.value) (· + 1) (⟨.value, 0⟩ : Alias.Scaffold Nat) =
      Alias.normalize (fun _ => Alias.AVKind.value) ⟨.value, 1⟩ :=
  ⟨(c10_alias_update (fun _ => Alias.AVKind.value) (· + 1) (· + 2) ⟨.bottom, 0⟩).1 rfl,
   (c10_alias_update (fun _ => Alias.AVKind.value) (· + 1) (· + 2) ⟨.value, 0⟩).2.2 (by decide)⟩

/-- C8 counterexample: with well-formed build arguments, `build` discards
the status returned by `OatFile::build` — an I/O failure during the build
still exits with code 0, not 1. -/
theorem c8_exit_counterexample :
    Oat.buildExit ⟨.build, false, false, 1, false, false, false, false, false⟩
      .buildIoError = 0 := by decide

/-- C8 (amended): the tool exits 0 on a successful dump and 1 on dump parse
failures and argument errors, but `build` returns 0 whenever its arguments
are well-formed, regardless of the build status (the status of
`OatFile::build` is discarded). -/
theorem c8_exit_codes (args : Oat.CliArgs) (fopenOk readOk : Bool)
    (parseStatus buildStatus : Oat.OatStatus) :
    (args.action = .none → Oat.mainExit args fopenOk readOk parseStatus buildStatus = 1) ∧
    (args.action = .dump →
      (Oat.mainExit args fopenOk readOk parseStatus buildStatus = 0 ↔
        (args.oatFileEmpty = false ∧ fopenOk = true ∧ readOk = true ∧
          parseStatus = .parseSuccess))) ∧
    (args.action = .build →
      Oat.mainExit args fopenOk readOk parseStatus buildStatus =
        (if args.oatFileEmpty ∨ args.dexFileCount = 0 ∨ args.oatVersionEmpty
          then 1 else 0)) := by
  obtain ⟨act, we, oe, dc, ove, a1, a2, a3, a4⟩ := args
  refine ⟨fun h => ?_, fun h => ?_, fun h => ?_⟩ <;> subst h
  · rfl
  · simp only [Oat.mainExit, Oat.dumpExit]
    cases oe <;> cases fopenOk <;> cases readOk <;>
      by_cases hp : parseStatus = .parseSuccess <;> simp_all
  · simp only [Oat.mainExit, Oat.buildExit]
    cases oe <;> rcases Nat.eq_zero_or_pos dc with h0 | h0 <;> cases ove <;>
      simp_all [Nat.pos_iff_ne_zero]

/-- C8 witness: the amended theorem applied to a successful dump and to a
failing build. -/
theorem c8_exit_codes_witness :
    Oat.mainExit ⟨.dump, false, false, 0, true, false, false, false, false⟩
      true true .parseSuccess .buildSuccess = 0 ∧
    Oat.mainExit ⟨.build, false, false, 1, false, false, false, false, false⟩
      true true .parseSuccess .buildIoError = 0 := by
  constructor
  · exact ((c8_exit_codes ⟨.dump, false, false, 0, true, false, false, false, false⟩
      true true .parseSuccess .buildSuccess).2.1 rfl).mpr ⟨rfl, rfl, rfl, rfl⟩
  · have h := (c8_exit_codes ⟨.build, false, false, 1, false, false, false, false, false⟩
      true true .parseSuccess .buildIoError).2.2 rfl
    simpa using h

/-- The written header is always the 72-byte form: at write time the
`common.version` field still holds the `0xcdcdcdcd` placeholder, so the
V045-only trampoline fields are never emitted. -/
theorem oatHeaderWrite_length (h : Oat.OatHdr) (hv : h.commonVersion ≠ Oat.v045) :
    (Oat.oatHeaderWrite h).length = 72 := by
  simp [Oat.oatHeaderWrite, Oat.u32le, hv]

theorem headerBytes_length (i : Oat.BuildInput) : (Oat.headerBytes i).length = 72 :=
  oatHeaderWrite_length _ ((by decide : (0xcdcdcdcd : Nat) ≠ Oat.v045))

theorem finalCommonBytes_length (i : Oat.BuildInput) :
    (Oat.finalCommonBytes i).length = 12 := by
  simp [Oat.finalCommonBytes, Oat.u32le]

/-- Dropping the written header from the final file leaves exactly the bytes
that went through the checksumming handle. -/
theorem buildOatfile_drop_header (i : Oat.BuildInput) :
    (Oat.buildOatfile i).drop 72 = Oat.checksummedBytes i := by
  show ((Oat.finalCommonBytes i) ++
    ((Oat.headerBytes i ++ Oat.checksummedBytes i).drop 12)).drop 72 =
      Oat.checksummedBytes i
  rw [show (72 : Nat) = (Oat.finalCommonBytes i).length + 60 from by
    rw [finalCommonBytes_length]]
  rw [List.drop_append]
  rw [List.drop_drop]
  rw [show 60 + 12 = (Oat.headerBytes i).length + 0 from by
    rw [headerBytes_length]]
  rw [List.drop_append]
  rw [List.drop_zero]

/-- One Adler-32 step on a zero byte leaves `a` unchanged. -/
theorem adlerStep_zero (a b : Nat) (ha : a < 65521) :
    Oat.adlerStep (a, b) 0 = (a, (b + a) % 65521) := by
  simp [Oat.adlerStep, Nat.mod_eq_of_lt ha]

/-- The Adler-32 state after a run of `k` zero bytes. -/
theorem adler_foldl_zeros (k a b : Nat) (ha : a < 65521) (hb : b < 65521) :
    List.foldl Oat.adlerStep (a, b) (List.replicate k 0) =
      (a, (b + k * a) % 65521) := by
  induction k generalizing b with
  | zero => simp [Nat.mod_eq_of_lt hb]
  | succ k ih =>
    rw [List.replicate_succ, List.foldl_cons, adlerStep_zero a b ha,
      ih ((b + a) % 65521) (Nat.mod_lt _ (by norm_num))]
    rw [Nat.mod_add_mod]
    congr 1
    ring

/-- C3 counterexample: building a V079 container from empty sections, the
stored checksum (over the bytes after the full 72-byte header) differs from
the Adler-32 of the bytes after the 12-byte common header — the
version-specific header fields are written outside the checksumming
handle. -/
theorem c3_checksum_counterexample :
    Oat.storedChecksum Oat.emptyBuild ≠
      Oat.adler32 ((Oat.buildOatfile Oat.emptyBuild).drop 12) := by
  have hbody : Oat.checksummedBytes Oat.emptyBuild = List.replicate 4024 0 := rfl
  have hdrop : (Oat.buildOatfile Oat.emptyBuild).drop 12 =
      Oat.emptyBuildHdrRest ++ List.replicate 4024 0 := rfl
  rw [hdrop, show Oat.storedChecksum Oat.emptyBuild =
    Oat.adler32 (List.replicate 4024 0) from congrArg Oat.adler32 hbody]
  show (List.foldl Oat.adlerStep (1, 0) (List.replicate 4024 0)).2 <<< 16 |||
      (List.foldl Oat.adlerStep (1, 0) (List.replicate 4024 0)).1 ≠
    (List.foldl Oat.adlerStep (1, 0)
        (Oat.emptyBuildHdrRest ++ List.replicate 4024 0)).2 <<< 16 |||
      (List.foldl Oat.adlerStep (1, 0)
        (Oat.emptyBuildHdrRest ++ List.replicate 4024 0)).1
  rw [List.foldl_append,
    show List.foldl Oat.adlerStep (1, 0) Oat.emptyBuildHdrRest = (18, 868) from by decide,
    adler_foldl_zeros 4024 1 0 (by norm_num) (by norm_num),
    adler_foldl_zeros 4024 18 868 (by norm_num) (by norm_num)]
  decide

/-- C3 (amended): the checksum stored in the common header equals the
Adler-32 of all bytes of the emitted file after the *full* `OatHeader`
(common header plus version-specific fields), and the 12-byte common header
carrying it is written last, after seeking back to the beginning of the
file over the placeholder. -/
theorem c3_checksum (i : Oat.BuildInput)
    (h : Oat.bytesBeforeFinalPad i ≤ Oat.oatSizeOf i) :
    Oat.storedChecksum i =
      Oat.adler32 ((Oat.buildOatfile i).drop (Oat.headerBytes i).length) ∧
    Oat.buildOatfile i =
      Oat.finalCommonBytes i ++ (Oat.fileBeforeSeekback i).drop 12 ∧
    Oat.finalCommonBytes i =
      Oat.u32le Oat.kOatMagicNum ++ Oat.u32le i.version ++
        Oat.u32le (Oat.storedChecksum i) := by
  refine ⟨?_, rfl, rfl⟩
  rw [headerBytes_length, buildOatfile_drop_header]
  rfl

/-- C3 witness: the amended theorem applied to the empty-sections V079
build. -/
theorem c3_checksum_witness :
    Oat.storedChecksum Oat.emptyBuild =
      Oat.adler32 ((Oat.buildOatfile Oat.emptyBuild).drop
        (Oat.headerBytes Oat.emptyBuild).length) :=
  (c3_checksum Oat.emptyBuild (by decide)).1

/-- C4: whenever `parse_oatfile_impl` runs without tripping a `CHECK` on a
buffer whose four magic bytes at the start of the AOT data section are not
`0x0A74616F`, it returns an `OatFile_Bad` holding just the common header, its
status is `PARSE_BAD_MAGIC_NUMBER`, and every range marked as read lies
within the 12-byte common header of the data section. -/
theorem c4_bad_magic (dfo : Bool) (buf : List Nat) (res : Oat.OatParseResult)
    (marks : List (Nat × Nat))
    (hp : Oat.parseOatfileImpl dfo buf = some (res, marks))
    (hm : Oat.readU32 (buf.drop (Oat.oatDataOffset buf)) 0 ≠ Oat.kOatMagicNum) :
    res = .bad (Oat.parseCommon (buf.drop (Oat.oatDataOffset buf))) ∧
    Oat.statusOf res = some .parseBadMagicNumber ∧
    ∀ m ∈ marks, m = (Oat.oatDataOffset buf, 12) := by
  rw [Oat.parseOatfileImpl] at hp
  by_cases h1 : Oat.oatDataOffset buf ≤ buf.length
  case neg => rw [if_neg h1] at hp; exact Option.noConfusion hp
  rw [if_pos h1] at hp
  by_cases h2 : 12 ≤ (buf.drop (Oat.oatDataOffset buf)).length
  case neg => rw [if_neg h2] at hp; exact Option.noConfusion hp
  rw [if_pos h2, if_pos (show (Oat.parseCommon
    (buf.drop (Oat.oatDataOffset buf))).magic ≠ Oat.kOatMagicNum from hm)] at hp
  injection hp with hpair
  obtain ⟨hres, hmarks⟩ := Prod.mk.injEq .. ▸ hpair
  subst hres
  subst hmarks
  refine ⟨rfl, rfl, ?_⟩
  intro m hmem
  simp only [List.mem_cons, List.not_mem_nil, or_false] at hmem
  rcases hmem with h | h <;> exact h

/-- C4 witness: the theorem applied to a 12-byte buffer starting with
`DE AD BE EF`. -/
theorem c4_bad_magic_witness :
    Oat.parseOatfileImpl false ([0xde, 0xad, 0xbe, 0xef] ++ List.replicate 8 0) =
      some (.bad (Oat.parseCommon ([0xde, 0xad, 0xbe, 0xef] ++ List.replicate 8 0)),
        [(0, 12), (0, 12)]) ∧
    (Oat.OatParseResult.bad
      (Oat.parseCommon ([0xde, 0xad, 0xbe, 0xef] ++ List.replicate 8 0))) =
      .bad (Oat.parseCommon
        (([0xde, 0xad, 0xbe, 0xef] ++ List.replicate 8 0).drop
          (Oat.oatDataOffset ([0xde, 0xad, 0xbe, 0xef] ++ List.replicate 8 0)))) := by
  refine ⟨by decide, ?_⟩
  exact (c4_bad_magic false ([0xde, 0xad, 0xbe, 0xef] ++ List.replicate 8 0)
    (.bad (Oat.parseCommon ([0xde, 0xad, 0xbe, 0xef] ++ List.replicate 8 0)))
    [(0, 12), (0, 12)] (by decide) (by decide)).1

/-- C5 counterexample: a 12-byte buffer with the correct magic and the
unrecognized version bytes `"123\0"` makes `parse_oatfile_impl` fall out of
its version switch and return a null pointer — there is no result whose
status could be `PARSE_UNKNOWN_VERSION`. -/
theorem c5_unknown_version_counterexample :
    Oat.parseOatfileImpl false
        ([0x6f, 0x61, 0x74, 0x0a, 0x31, 0x32, 0x33, 0x00] ++ List.replicate 4 0) =
      some (.nullResult, [(0, 12)]) ∧
    Oat.statusOf .nullResult = none := by
  refine ⟨by decide, rfl⟩

/-- C5 (amended): with the correct magic, the parser returns an
`OatFile_Unknown` (status `PARSE_UNKNOWN_VERSION`, common header still
inspectable) exactly for the version value 0 (`OatVersion::UNKNOWN`); any
other unrecognized version falls out of the switch and yields a null
result. -/
theorem c5_unknown_version (dfo : Bool) (buf : List Nat)
    (res : Oat.OatParseResult) (marks : List (Nat × Nat))
    (hp : Oat.parseOatfileImpl dfo buf = some (res, marks))
    (hm : Oat.readU32 (buf.drop (Oat.oatDataOffset buf)) 0 = Oat.kOatMagicNum) :
    (Oat.readU32 (buf.drop (Oat.oatDataOffset buf)) 4 = Oat.vUnknown →
      res = .unknown (Oat.parseCommon (buf.drop (Oat.oatDataOffset buf))) ∧
      Oat.statusOf res = some .parseUnknownVersion) ∧
    (Oat.readU32 (buf.drop (Oat.oatDataOffset buf)) 4 ∉
        [Oat.v045, Oat.v064, Oat.v079, Oat.v088, Oat.vUnknown] →
      res = .nullResult) := by
  rw [Oat.parseOatfileImpl] at hp
  by_cases h1 : Oat.oatDataOffset buf ≤ buf.length
  case neg => rw [if_neg h1] at hp; exact Option.noConfusion hp
  rw [if_pos h1] at hp
  by_cases h2 : 12 ≤ (buf.drop (Oat.oatDataOffset buf)).length
  case neg => rw [if_neg h2] at hp; exact Option.noConfusion hp
  rw [if_pos h2, if_neg (show ¬ (Oat.parseCommon
      (buf.drop (Oat.oatDataOffset buf))).magic ≠ Oat.kOatMagicNum from
    fun hne => hne hm)] at hp
  by_cases h3 : (Oat.parseCommon (buf.drop (Oat.oatDataOffset buf))).version =
      Oat.v045 ∨ (Oat.parseCommon (buf.drop (Oat.oatDataOffset buf))).version = Oat.v064
  · rw [if_pos h3] at hp
    injection hp with hpair
    obtain ⟨hres, _⟩ := Prod.mk.injEq .. ▸ hpair
    subst hres
    constructor
    · intro hv
      rcases h3 with h | h
      · exact absurd (h.symm.trans hv) (by decide)
      · exact absurd (h.symm.trans hv) (by decide)
    · intro hv
      rcases h3 with h | h
      · exact absurd (by rw [show Oat.readU32 (buf.drop (Oat.oatDataOffset buf)) 4 = _ from h]; simp : Oat.readU32 (buf.drop (Oat.oatDataOffset buf)) 4 ∈
          [Oat.v045, Oat.v064, Oat.v079, Oat.v088, Oat.vUnknown]) hv
      · exact absurd (by rw [show Oat.readU32 (buf.drop (Oat.oatDataOffset buf)) 4 = _ from h]; simp : Oat.readU32 (buf.drop (Oat.oatDataOffset buf)) 4 ∈
          [Oat.v045, Oat.v064, Oat.v079, Oat.v088, Oat.vUnknown]) hv
  rw [if_neg h3] at hp
  by_cases h4 : (Oat.parseCommon (buf.drop (Oat.oatDataOffset buf))).version =
      Oat.v079 ∨ (Oat.parseCommon (buf.drop (Oat.oatDataOffset buf))).version = Oat.v088
  · rw [if_pos h4] at hp
    injection hp with hpair
    obtain ⟨hres, _⟩ := Prod.mk.injEq .. ▸ hpair
    subst hres
    constructor
    · intro hv
      rcases h4 with h | h
      · exact absurd (h.symm.trans hv) (by decide)
      · exact absurd (h.symm.trans hv) (by decide)
    · intro hv
      rcases h4 with h | h
      · exact absurd (by rw [show Oat.readU32 (buf.drop (Oat.oatDataOffset buf)) 4 = _ from h]; simp : Oat.readU32 (buf.drop (Oat.oatDataOffset buf)) 4 ∈
          [Oat.v045, Oat.v064, Oat.v079, Oat.v088, Oat.vUnknown]) hv
      · exact absurd (by rw [show Oat.readU32 (buf.drop (Oat.oatDataOffset buf)) 4 = _ from h]; simp : Oat.readU32 (buf.drop (Oat.oatDataOffset buf)) 4 ∈
          [Oat.v045, Oat.v064, Oat.v079, Oat.v088, Oat.vUnknown]) hv
  rw [if_neg h4] at hp
  by_cases h5 : (Oat.parseCommon (buf.drop (Oat.oatDataOffset buf))).version = Oat.vUnknown
  · rw [if_pos h5] at hp
    injection hp with hpair
    obtain ⟨hres, _⟩ := Prod.mk.injEq .. ▸ hpair
    subst hres
    refine ⟨fun _ => ⟨rfl, rfl⟩, fun hv => ?_⟩
    exact absurd (by rw [show Oat.readU32 (buf.drop (Oat.oatDataOffset buf)) 4 =
        Oat.vUnknown from h5]; simp :
      Oat.readU32 (buf.drop (Oat.oatDataOffset buf)) 4 ∈
        [Oat.v045, Oat.v064, Oat.v079, Oat.v088, Oat.vUnknown]) hv
  · rw [if_neg h5] at hp
    injection hp with hpair
    obtain ⟨hres, _⟩ := Prod.mk.injEq .. ▸ hpair
    subst hres
    exact ⟨fun hv => absurd hv h5, fun _ => rfl⟩

/-- C5 witness: the amended theorem applied to a buffer with version 0
(yielding `OatFile_Unknown`). -/
theorem c5_unknown_version_witness :
    Oat.OatParseResult.unknown
        (Oat.parseCommon ([0x6f, 0x61, 0x74, 0x0a] ++ List.replicate 8 0)) =
      .unknown (Oat.parseCommon
        (([0x6f, 0x61, 0x74, 0x0a] ++ List.replicate 8 0).drop
          (Oat.oatDataOffset ([0x6f, 0x61, 0x74, 0x0a] ++ List.replicate 8 0)))) ∧
    Oat.statusOf (.unknown
        (Oat.parseCommon ([0x6f, 0x61, 0x74, 0x0a] ++ List.replicate 8 0))) =
      some .parseUnknownVersion :=
  (c5_unknown_version false ([0x6f, 0x61, 0x74, 0x0a] ++ List.replicate 8 0)
    (.unknown (Oat.parseCommon ([0x6f, 0x61, 0x74, 0x0a] ++ List.replicate 8 0)))
    [(0, 12), (0, 12)] (by decide) (by decide)).1 (by decide)

/-- Membership in the register file built by `mark_adjacent`, generalized
over the fold accumulator. -/
theorem markAdjacent_foldl_mem (ig : Regalloc.IGraph) (regMap : Nat → Option Nat)
    (l : List Nat) (acc : Finset Nat) (k : Nat) :
    (k ∈ l.foldl (fun occ adj =>
        match regMap adj with
        | some v => Regalloc.allocAt occ v (ig adj).width
        | none => occ) acc) ↔
      k ∈ acc ∨ ∃ adj ∈ l, ∃ v, regMap adj = some v ∧
        k ∈ Finset.Ico v (v + (ig adj).width) := by
  induction l generalizing acc with
  | nil => simp
  | cons a l ih =>
    rw [List.foldl_cons]
    rcases ha : regMap a with _ | v
    · rw [ih]
      constructor
      · rintro (h | ⟨adj, hadj, v, hv, hk⟩)
        · exact Or.inl h
        · exact Or.inr ⟨adj, List.mem_cons_of_mem a hadj, v, hv, hk⟩
      · rintro (h | ⟨adj, hadj, v, hv, hk⟩)
        · exact Or.inl h
        · rcases List.mem_cons.mp hadj with rfl | hadj
          · rw [ha] at hv; exact absurd hv (by simp)
          · exact Or.inr ⟨adj, hadj, v, hv, hk⟩
    · rw [ih]
      constructor
      · rintro (h | ⟨adj, hadj, w, hw, hk⟩)
        · rcases Finset.mem_union.mp h with h | h
          · exact Or.inl h
          · exact Or.inr ⟨a, List.mem_cons_self a l, v, ha, h⟩
        · exact Or.inr ⟨adj, List.mem_cons_of_mem a hadj, w, hw, hk⟩
      · rintro (h | ⟨adj, hadj, w, hw, hk⟩)
        · exact Or.inl (Finset.mem_union_left _ h)
        · rcases List.mem_cons.mp hadj with rfl | hadj
          · rw [ha] at hw
            obtain rfl : v = w := by injection hw
            exact Or.inl (Finset.mem_union_right _ hk)
          · exact Or.inr ⟨adj, hadj, w, hw, hk⟩

/-- One slot past the highest occupied vreg always fits. -/
theorem isFreeAt_sup_succ (occ : Finset Nat) (w : Nat) :
    Regalloc.isFreeAt occ (occ.sup id + 1) w = true := by
  simp only [Regalloc.isFreeAt, decide_eq_true_eq]
  intro k hk hmem
  have hle : k ≤ occ.sup id := Finset.le_sup (f := id) hmem
  have : occ.sup id + 1 ≤ k := (Finset.mem_Ico.mp hk).1
  omega

/-- The linear search of the register file returns the least fitting base at
or after its start, provided something within reach fits. -/
theorem lowestFitAux_spec (occ : Finset Nat) (w : Nat) :
    ∀ fuel base, Regalloc.isFreeAt occ (base + fuel) w = true →
      Regalloc.isFreeAt occ (Regalloc.lowestFitAux occ w fuel base) w = true ∧
      base ≤ Regalloc.lowestFitAux occ w fuel base ∧
      ∀ c, base ≤ c → c < Regalloc.lowestFitAux occ w fuel base →
        Regalloc.isFreeAt occ c w = false := by
  intro fuel
  induction fuel with
  | zero =>
    intro base hfree
    refine ⟨by simpa using hfree, Nat.le_refl _, ?_⟩
    intro c hc1 hc2
    rw [Regalloc.lowestFitAux] at hc2
    omega
  | succ fuel ih =>
    intro base hfree
    rw [Regalloc.lowestFitAux]
    by_cases hb : Regalloc.isFreeAt occ base w = true
    · rw [if_pos hb]
      exact ⟨hb, Nat.le_refl _, fun c hc1 hc2 => by omega⟩
    · rw [if_neg hb]
      have hstep : Regalloc.isFreeAt occ (base + 1 + fuel) w = true := by
        rw [show base + 1 + fuel = base + (fuel + 1) from by ring]
        exact hfree
      obtain ⟨hf, hle, hmin⟩ := ih (base + 1) hstep
      refine ⟨hf, by omega, ?_⟩
      intro c hc1 hc2
      rcases Nat.eq_or_lt_of_le hc1 with rfl | hlt
      · exact Bool.not_eq_true _ ▸ (by simpa using hb)
      · exact hmin c (by omega) hc2

/-- `vregAlloc` returns the lowest base at which `width` contiguous vregs
are free. -/
theorem vregAlloc_spec (occ : Finset Nat) (w : Nat) :
    Regalloc.isFreeAt occ (Regalloc.vregAlloc occ w) w = true ∧
    ∀ b < Regalloc.vregAlloc occ w, Regalloc.isFreeAt occ b w = false := by
  have h := lowestFitAux_spec occ w (occ.sup id + 1) 0
    (by simpa using isFreeAt_sup_succ occ w)
  exact ⟨h.1, fun b hb => h.2.2 b (Nat.zero_le b) hb⟩

/-- C6: in the allocator's select stage, every popped node is processed by
`selectStep`; the candidate vreg is the lowest index at which `width`
contiguous vregs are free of the registers already assigned to the node's
coloured neighbours, the node receives that assignment when the candidate is
at most its max encodable vreg (the spill plan untouched), and it is
recorded as a global spill with no assignment made exactly when the
candidate exceeds it. -/
theorem c6_select_lowest_fit (ig : Regalloc.IGraph) (st : Regalloc.SelectState)
    (reg : Nat) (stack : List Nat) :
    Regalloc.select ig (reg :: stack) st =
      Regalloc.select ig stack (Regalloc.selectStep ig st reg) ∧
    (∀ k, k ∈ Regalloc.markAdjacent ig reg st.regMap ↔
      ∃ adj ∈ (ig reg).adjacent, ∃ v, st.regMap adj = some v ∧
        k ∈ Finset.Ico v (v + (ig adj).width)) ∧
    Regalloc.isFreeAt (Regalloc.markAdjacent ig reg st.regMap)
      (Regalloc.vregAlloc (Regalloc.markAdjacent ig reg st.regMap) (ig reg).width)
      (ig reg).width = true ∧
    (∀ b < Regalloc.vregAlloc (Regalloc.markAdjacent ig reg st.regMap)
        (ig reg).width,
      Regalloc.isFreeAt (Regalloc.markAdjacent ig reg st.regMap) b
        (ig reg).width = false) ∧
    (Regalloc.vregAlloc (Regalloc.markAdjacent ig reg st.regMap) (ig reg).width ≤
        (ig reg).maxVreg →
      (Regalloc.selectStep ig st reg).regMap reg =
        some (Regalloc.vregAlloc (Regalloc.markAdjacent ig reg st.regMap)
          (ig reg).width) ∧
      (Regalloc.selectStep ig st reg).globalSpills = st.globalSpills ∧
      (Regalloc.selectStep ig st reg).spillCosts = st.spillCosts) ∧
    ((ig reg).maxVreg <
        Regalloc.vregAlloc (Regalloc.markAdjacent ig reg st.regMap) (ig reg).width →
      (Regalloc.selectStep ig st reg).regMap = st.regMap ∧
      (Regalloc.selectStep ig st reg).globalSpills reg =
        some (Regalloc.vregAlloc (Regalloc.markAdjacent ig reg st.regMap)
          (ig reg).width) ∧
      (Regalloc.selectStep ig st reg).spillCosts reg = some 0) := by
  refine ⟨rfl, ?_, (vregAlloc_spec _ _).1, (vregAlloc_spec _ _).2, ?_, ?_⟩
  · intro k
    exact markAdjacent_foldl_mem ig st.regMap (ig reg).adjacent ∅ k |>.trans
      (by simp)
  · intro hle
    simp [Regalloc.selectStep, if_pos hle]
  · intro hlt
    simp [Regalloc.selectStep, if_neg (Nat.not_le_of_lt hlt)]

/-- C6 witness: the theorem applied to a one-edge interference graph where
the only free slot exceeds the node's max encodable vreg, so it is recorded
as a global spill. -/
theorem c6_select_lowest_fit_witness :
    (Regalloc.selectStep (fun r => if r = 0 then ⟨1, 0, [1]⟩ else ⟨1, 0, []⟩)
        ⟨fun r => if r = 1 then some 0 else none, fun _ => none, fun _ => none, 0⟩
        0).globalSpills 0 = some (Regalloc.vregAlloc
          (Regalloc.markAdjacent (fun r => if r = 0 then ⟨1, 0, [1]⟩ else ⟨1, 0, []⟩)
            0 (fun r => if r = 1 then some 0 else none))
          ((if (0 : Nat) = 0 then (⟨1, 0, [1]⟩ : Regalloc.IGNode) else ⟨1, 0, []⟩).width)) := by
  have h := (c6_select_lowest_fit
    (fun r => if r = 0 then ⟨1, 0, [1]⟩ else ⟨1, 0, []⟩)
    ⟨fun r => if r = 1 then some 0 else none, fun _ => none, fun _ => none, 0⟩
    0 []).2.2.2.2.2 (by decide)
  exact h.2.1

/-- Membership in the `get_all_children` fold, generalized over the
accumulated set. -/
theorem allChildren_foldl_mem (n : Nat) (ch : Fin n → List (Fin n)) (fuel : Nat)
    (l : List (Fin n)) (acc : Finset (Fin n)) (x : Fin n) :
    (x ∈ l.foldl (fun acc c => insert c acc ∪ Hier.allChildren n ch fuel c) acc) ↔
      x ∈ acc ∨ ∃ c ∈ l, x = c ∨ x ∈ Hier.allChildren n ch fuel c := by
  induction l generalizing acc with
  | nil => simp
  | cons a l ih =>
    rw [List.foldl_cons, ih]
    constructor
    · rintro (h | ⟨c, hc, hx⟩)
      · rcases Finset.mem_union.mp h with h | h
        · rcases Finset.mem_insert.mp h with h | h
          · exact Or.inr ⟨a, List.mem_cons_self a l, Or.inl h⟩
          · exact Or.inl h
        · exact Or.inr ⟨a, List.mem_cons_self a l, Or.inr h⟩
      · exact Or.inr ⟨c, List.mem_cons_of_mem a hc, hx⟩
    · rintro (h | ⟨c, hc, hx⟩)
      · exact Or.inl (Finset.mem_union_left _ (Finset.mem_insert_of_mem h))
      · rcases List.mem_cons.mp hc with hca | hcl
        · rcases hx with hxc | hxm
          · refine Or.inl (Finset.mem_union_left _ ?_)
            rw [hxc, hca]
            exact Finset.mem_insert_self _ _
          · refine Or.inl (Finset.mem_union_right _ ?_)
            rw [← hca]
            exact hxm
        · exact Or.inr ⟨c, hcl, hx⟩

/-- Unfolding of `get_all_children` at positive fuel. -/
theorem allChildren_succ_mem (n : Nat) (ch : Fin n → List (Fin n)) (fuel : Nat)
    (t x : Fin n) :
    x ∈ Hier.allChildren n ch (fuel + 1) t ↔
      ∃ c ∈ ch t, x = c ∨ x ∈ Hier.allChildren n ch fuel c := by
  rw [Hier.allChildren, allChildren_foldl_mem]
  simp

/-- Everything `get_all_children` collects is a transitive descendant. -/
theorem allChildren_sound (n : Nat) (ch : Fin n → List (Fin n)) :
    ∀ (fuel : Nat) (t x : Fin n), x ∈ Hier.allChildren n ch fuel t →
      Hier.Desc n ch t x := by
  intro fuel
  induction fuel with
  | zero => intro t x h; simp [Hier.allChildren] at h
  | succ fuel ih =>
    intro t x h
    obtain ⟨c, hc, rfl | hx⟩ := (allChildren_succ_mem n ch fuel t x).mp h
    · exact Relation.TransGen.single hc
    · exact Relation.TransGen.head hc (ih c x hx)

/-- A descent path never has an empty vertex list. -/
theorem chainTo_ne_nil {n : Nat} {ch : Fin n → List (Fin n)} {a c : Fin n}
    {l : List (Fin n)} (h : Hier.ChainTo n ch a l c) : l ≠ [] := by
  cases h <;> simp

/-- Descent paths compose. -/
theorem chainTo_trans {n : Nat} {ch : Fin n → List (Fin n)} {a b c : Fin n}
    {l1 l2 : List (Fin n)} (h1 : Hier.ChainTo n ch a l1 b)
    (h2 : Hier.ChainTo n ch b l2 c) : Hier.ChainTo n ch a (l1 ++ l2) c := by
  induction h1 with
  | single hm => exact .cons hm h2
  | cons hm _ ih => exact .cons hm (ih h2)

/-- A descent path extends by one more child step. -/
theorem chainTo_snoc {n : Nat} {ch : Fin n → List (Fin n)} {a b c : Fin n}
    {l : List (Fin n)} (h : Hier.ChainTo n ch a l b) (hc : c ∈ ch b) :
    Hier.ChainTo n ch a (l ++ [c]) c := by
  induction h with
  | single hm => exact .cons hm (.single hc)
  | cons hm _ ih => exact .cons hm (ih hc)

/-- Transitive descent is exactly the existence of a descent path. -/
theorem desc_iff_chain (n : Nat) (ch : Fin n → List (Fin n)) (a c : Fin n) :
    Hier.Desc n ch a c ↔ ∃ l, Hier.ChainTo n ch a l c := by
  constructor
  · intro h
    induction h with
    | single hr => exact ⟨[_], .single hr⟩
    | tail _ hr ih =>
      obtain ⟨l, hl⟩ := ih
      exact ⟨l ++ [_], chainTo_snoc hl hr⟩
  · rintro ⟨l, hl⟩
    induction hl with
    | single hm => exact Relation.TransGen.single hm
    | cons hm _ ih => exact Relation.TransGen.head hm ih

/-- A descent path of length at most the fuel lands its endpoint in
`get_all_children`. -/
theorem chainTo_mem_allChildren {n : Nat} {ch : Fin n → List (Fin n)}
    {a c : Fin n} {l : List (Fin n)} (h : Hier.ChainTo n ch a l c) :
    ∀ fuel, l.length ≤ fuel → c ∈ Hier.allChildren n ch fuel a := by
  induction h with
  | single hm =>
    intro fuel hf
    cases fuel with
    | zero => simp at hf
    | succ fuel =>
      exact (allChildren_succ_mem n ch fuel _ _).mpr ⟨_, hm, Or.inl rfl⟩
  | cons hm hrest ih =>
    intro fuel hf
    cases fuel with
    | zero => simp at hf
    | succ fuel =>
      refine (allChildren_succ_mem n ch fuel _ _).mpr ⟨_, hm, Or.inr ?_⟩
      refine ih fuel ?_
      simp only [List.length_cons] at hf
      omega

/-- Every list either has no duplicates or contains an element that occurs
again later. -/
theorem nodup_or_split {n : Nat} (l : List (Fin n)) :
    l.Nodup ∨ ∃ l1 x l2, l = l1 ++ x :: l2 ∧ x ∈ l2 := by
  induction l with
  | nil => exact Or.inl (by simp)
  | cons a t ih =>
    by_cases ha : a ∈ t
    · exact Or.inr ⟨[], a, t, by simp, ha⟩
    · rcases ih with h | ⟨l1, x, l2, rfl, hx⟩
      · exact Or.inl (by simp [h, ha])
      · exact Or.inr ⟨a :: l1, x, l2, by simp, hx⟩

/-- Splitting a descent path at an interior vertex (the path index is kept
general so that the induction can invert the last constructor). -/
theorem chainTo_split {n : Nat} {ch : Fin n → List (Fin n)} {a c : Fin n}
    {l : List (Fin n)} (h : Hier.ChainTo n ch a l c) :
    ∀ l1 x l2, l = l1 ++ x :: l2 →
      Hier.ChainTo n ch a (l1 ++ [x]) x ∧ (l2 = [] → x = c) ∧
        (l2 ≠ [] → Hier.ChainTo n ch x l2 c) := by
  induction h with
  | @single a b hm =>
    intro l1 x l2 heq
    match l1, heq with
    | [], heq =>
      injection heq with h1 h2
      subst h1
      obtain rfl : l2 = [] := h2.symm
      exact ⟨.single hm, fun _ => rfl, fun hne => absurd rfl hne⟩
    | y :: l1, heq =>
      injection heq with h1 h2
      exact absurd h2.symm (by simp)
  | @cons a b cc l hm hc ih =>
    intro l1 x l2 heq
    match l1, heq with
    | [], heq =>
      injection heq with h1 h2
      subst h1
      subst h2
      refine ⟨.single hm, fun he => ?_, fun _ => hc⟩
      exact absurd (chainTo_ne_nil hc) (by simp [he])
    | y :: l1, heq =>
      injection heq with h1 h2
      subst h1
      obtain ⟨hh1, hh2, hh3⟩ := ih l1 x l2 h2
      exact ⟨.cons hm hh1, hh2, hh3⟩

/-- A descent path with a repeated vertex shortens. -/
theorem chainTo_shorten {n : Nat} {ch : Fin n → List (Fin n)} {a c x : Fin n}
    {l1 l2 : List (Fin n)} (h : Hier.ChainTo n ch a (l1 ++ x :: l2) c)
    (hx : x ∈ l2) :
    ∃ l, l.length < (l1 ++ x :: l2).length ∧ Hier.ChainTo n ch a l c := by
  obtain ⟨l2a, l2b, rfl⟩ := List.append_of_mem hx
  obtain ⟨hfst, -, hcons⟩ := chainTo_split h l1 x (l2a ++ x :: l2b) rfl
  have hrest : Hier.ChainTo n ch x (l2a ++ x :: l2b) c := hcons (by simp)
  obtain ⟨-, hnil2, hcons2⟩ := chainTo_split hrest l2a x l2b rfl
  by_cases hb : l2b = []
  · subst hb
    obtain rfl : x = c := hnil2 rfl
    refine ⟨l1 ++ [x], ?_, hfst⟩
    simp only [List.length_append, List.length_cons, List.length_nil]
    omega
  · refine ⟨(l1 ++ [x]) ++ l2b, ?_, chainTo_trans hfst (hcons2 hb)⟩
    simp only [List.length_append, List.length_cons, List.length_nil]
    omega

/-- Every descent path reduces to one without repeated vertices. -/
theorem chainTo_to_nodup {n : Nat} {ch : Fin n → List (Fin n)} :
    ∀ (m : Nat) (a c : Fin n) (l : List (Fin n)), l.length ≤ m →
      Hier.ChainTo n ch a l c →
      ∃ l2, l2.Nodup ∧ Hier.ChainTo n ch a l2 c := by
  intro m
  induction m with
  | zero =>
    intro a c l hl h
    have := chainTo_ne_nil h
    cases l
    · exact absurd rfl this
    · simp at hl
  | succ m ih =>
    intro a c l hl h
    rcases nodup_or_split l with hn | ⟨l1, x, l2, rfl, hx⟩
    · exact ⟨l, hn, h⟩
    · obtain ⟨l2, hlen, h2⟩ := chainTo_shorten h hx
      refine ih a c l2 ?_ h2
      simp only [List.length_append, List.length_cons] at hl hlen
      omega

/-- Every transitive descendant is collected with fuel `n` (a duplicate-free
descent path over `Fin n` has length at most `n`). -/
theorem desc_mem_allChildren {n : Nat} {ch : Fin n → List (Fin n)} {t x : Fin n}
    (h : Hier.Desc n ch t x) : x ∈ Hier.allChildren n ch n t := by
  obtain ⟨l, hl⟩ := (desc_iff_chain n ch t x).mp h
  obtain ⟨l', hnd, hl'⟩ := chainTo_to_nodup l.length t x l (Nat.le_refl _) hl
  refine chainTo_mem_allChildren hl' n ?_
  have := hnd.length_le_card
  simpa using this

/-- An index in which no type re-appears below itself is acyclic. -/
theorem acyclic_of_allChildren {n : Nat} {ch : Fin n → List (Fin n)}
    (h : ∀ t, t ∉ Hier.allChildren n ch n t) : Hier.Acyclic n ch :=
  fun t hdesc => h t (desc_mem_allChildren hdesc)

/-- C7: for every acyclic class-hierarchy index and every type `t`,
`get_all_children` (run with fuel `n`, which the acyclicity bound makes
sufficient) returns exactly the set of transitive descendants of `t` — the
union over `t`'s direct children of each child and its descendants — and
never contains `t` itself. -/
theorem c7_hierarchy_closure (n : Nat) (ch : Fin n → List (Fin n)) (t : Fin n)
    (hacyc : Hier.Acyclic n ch) :
    (∀ x, x ∈ Hier.allChildren n ch n t ↔ Hier.Desc n ch t x) ∧
    t ∉ Hier.allChildren n ch n t := by
  refine ⟨fun x => ⟨allChildren_sound n ch n t x, desc_mem_allChildren⟩, ?_⟩
  intro hmem
  exact hacyc t (allChildren_sound n ch n t t hmem)

/-- C7 witness: the theorem applied to the three-type hierarchy
`0 → {1, 2}, 1 → {2}`. -/
theorem c7_hierarchy_closure_witness :
    (∀ x, x ∈ Hier.allChildren 3
        (fun i => if i = 0 then [1, 2] else if i = 1 then [2] else []) 3 0 ↔
      Hier.Desc 3 (fun i => if i = 0 then [1, 2] else if i = 1 then [2] else []) 0 x) ∧
    (0 : Fin 3) ∉ Hier.allChildren 3
      (fun i => if i = 0 then [1, 2] else if i = 1 then [2] else []) 3 0 :=
  c7_hierarchy_closure 3 (fun i => if i = 0 then [1, 2] else if i = 1 then [2] else [])
    0 (acyclic_of_allChildren (by decide))

/-- C9: with `is_virtual = false`, `find_collision_excepting` inspects only
the class's own direct- and virtual-method lists: its result is the first
match (other than `except`) in the d-methods, else in the v-methods, else
null; it does not depend on the hierarchy, the `type_class` index, the
virtual resolver, the super class, or the `check_direct` flag; and when
neither list contains a matching method other than `except` it returns
null. -/
theorem c9_collision_non_virtual {n : Nat} (ch ch2 : Fin n → List (Fin n))
    (tc tc2 : Fin n → Option Hier.ClassDef)
    (rv rv2 : Hier.ClassDef → Nat → Nat → Option Hier.Method)
    (exceptId name proto : Nat) (cls : Hier.ClassDef) (clsType clsType2 : Fin n)
    (sup sup2 : Option Hier.ClassDef) (cd cd2 : Bool) :
    Hier.findCollisionExcepting ch tc rv exceptId name proto cls clsType sup
        false cd =
      ((Hier.findMatchExcept name proto exceptId cls.dmethods).orElse
        (fun _ => Hier.findMatchExcept name proto exceptId cls.vmethods)) ∧
    Hier.findCollisionExcepting ch tc rv exceptId name proto cls clsType sup
        false cd =
      Hier.findCollisionExcepting ch2 tc2 rv2 exceptId name proto cls clsType2
        sup2 false cd2 ∧
    (Hier.findMatchExcept name proto exceptId cls.dmethods = none →
      Hier.findMatchExcept name proto exceptId cls.vmethods = none →
      Hier.findCollisionExcepting ch tc rv exceptId name proto cls clsType sup
        false cd = none) := by
  rcases hd : Hier.findMatchExcept name proto exceptId cls.dmethods with _ | m
  · rcases hv : Hier.findMatchExcept name proto exceptId cls.vmethods with _ | m
    · refine ⟨?_, ?_, fun _ _ => ?_⟩ <;>
        simp [Hier.findCollisionExcepting, hd, hv, Option.orElse]
    · refine ⟨?_, ?_, fun _ hcv => ?_⟩
      · simp [Hier.findCollisionExcepting, hd, hv, Option.orElse]
      · simp [Hier.findCollisionExcepting, hd, hv]
      · exact absurd hcv (by simp [hv])
  · refine ⟨?_, ?_, fun hcd _ => ?_⟩
    · simp [Hier.findCollisionExcepting, hd, Option.orElse]
    · simp [Hier.findCollisionExcepting, hd]
    · exact absurd hcd (by simp [hd])

/-- C9 witness: the theorem applied to a method-less class under two
entirely different hierarchies, resolvers and `check_direct` flags. -/
theorem c9_collision_non_virtual_witness :
    Hier.findCollisionExcepting (n := 1) (fun _ => []) (fun _ => none)
      (fun _ _ _ => none) 0 0 0 ⟨[], []⟩ 0 none false true = none :=
  (c9_collision_non_virtual (n := 1) (fun _ => []) (fun _ => [0])
    (fun _ => none) (fun _ => some ⟨[], []⟩) (fun _ _ _ => none)
    (fun _ _ _ => some ⟨0, 0, 7⟩) 0 0 0 ⟨[], []⟩ 0 0 none (some ⟨[], []⟩)
    true false).2.2 rfl rfl
